import Mathlib

/-!
Shallow embedding of the security & compliance layer of the insurance
chatbot (modules `hipaa_compliance.py`, `security.py`, `analytics.py`,
`error_analysis.py`), together with theorems settling the frozen claims
about it.

Modelling conventions:
* `datetime` values are natural numbers; the consent/retention modules
  measure time in days (matching `timedelta(days=...)` comparisons), the
  error-analysis module in hours (its window is `timedelta(hours=1)`).
* Fernet is modelled symbolically: a ciphertext is a constructor carrying
  the (abstract, numeric) key it was produced under and the plaintext
  payload; `fernetDecrypt` succeeds exactly on ciphertexts of the matching
  key.  Legacy plaintext is a raw string.  Every Fernet token begins with
  the marker `"gAAAAAB"`, which is how the source distinguishes the two.
* SQLite tables are lists of records in rowid order; `UPDATE` is a map,
  `DELETE` is a filter, `INSERT` is an append.
* Python `try/except` around a whole operation is modelled by an `Except`
  input (for the store read of `check_consent`) or by total functions
  whose error branches return the source's fallback values.
-/

namespace InsuranceChatbot

/-! ### Consent ledger (`hipaa_compliance.py`) -/

/-- One row of the `user_consent` table (`_init_consent_database`). -/
structure ConsentRecord where
  user_id : String
  session_id : String
  consent_type : String
  consent_given : Bool
  consent_timestamp : Nat
  withdrawal_timestamp : Option Nat
  withdrawal_reason : Option String
  deriving DecidableEq

/-- The constant `self.data_retention_days` of `HIPAAComplianceManager`
(7 years, in days). -/
def data_retention_days : Nat := 2555

/-- The `WHERE user_id = ? AND consent_type = ?` filter of the consent
queries. -/
def matchesConsent (uid ty : String) (r : ConsentRecord) : Bool :=
  r.user_id == uid && r.consent_type == ty

/-- The `SELECT ... ORDER BY consent_timestamp DESC LIMIT 1` of
`check_consent`: the matching record with the greatest
`consent_timestamp` (first such record in rowid order on ties). -/
def latestFor (db : List ConsentRecord) (uid ty : String) : Option ConsentRecord :=
  (db.filter (matchesConsent uid ty)).foldl
    (fun acc r =>
      match acc with
      | none => some r
      | some b => if r.consent_timestamp > b.consent_timestamp then some r else some b)
    none

/-- Body of `HIPAAComplianceManager.check_consent` on a successfully read
store: no row gives `False`; a set `withdrawal_timestamp` gives `False`;
a record older than `data_retention_days` gives `False`; otherwise the
stored `consent_given` flag is returned. -/
def check_consent_on (db : List ConsentRecord) (now : Nat) (uid ty : String) : Bool :=
  match latestFor db uid ty with
  | none => false
  | some r =>
    if r.withdrawal_timestamp.isSome then false
    else if now - r.consent_timestamp > data_retention_days then false
    else r.consent_given

/-- `HIPAAComplianceManager.check_consent` with its `try/except`: a store
read that raises is the `Except.error` case and yields `False`. -/
def check_consent (res : Except String (List ConsentRecord)) (now : Nat)
    (uid ty : String) : Bool :=
  match res with
  | .error _ => false
  | .ok db => check_consent_on db now uid ty

/-- The per-row effect of the `UPDATE` in
`HIPAAComplianceManager.withdraw_consent`. -/
def withdrawRow (now : Nat) (reason : String) (uid ty : String)
    (r : ConsentRecord) : ConsentRecord :=
  if matchesConsent uid ty r && r.withdrawal_timestamp.isNone then
    { r with withdrawal_timestamp := some now, withdrawal_reason := some reason }
  else r

/-- `HIPAAComplianceManager.withdraw_consent`: the SQL
`UPDATE user_consent SET withdrawal_timestamp = ?, withdrawal_reason = ?
WHERE user_id = ? AND consent_type = ? AND withdrawal_timestamp IS NULL`. -/
def withdraw_consent (db : List ConsentRecord) (now : Nat) (reason : String)
    (uid ty : String) : List ConsentRecord :=
  db.map (withdrawRow now reason uid ty)

/-! ### Symbolic Fernet cipher and stored values (`security.py`, `analytics.py`) -/

/-- An abstract Fernet token: the (numeric stand-in for the) key it was
produced under and its plaintext payload. -/
structure Ctxt where
  key : Nat
  payload : String
  deriving DecidableEq

/-- A value persisted in an encrypted column: either a legacy plaintext
string or a Fernet token. -/
inductive StoredValue
  | raw (s : String)
  | enc (c : Ctxt)
  deriving DecidableEq

/-- The string a stored value presents to code that handles it as text.
Fernet tokens always begin with the marker `"gAAAAAB"`; the rendering of
the abstract payload after the marker is irrelevant to every theorem. -/
def StoredValue.toStr : StoredValue → String
  | .raw s => s
  | .enc c => "gAAAAAB" ++ c.payload

/-- The `startswith('gAAAAAB')` ciphertext-format test of
`analytics.load_data.safe_decrypt`. -/
def hasMarker : StoredValue → Bool
  | .raw s => s.startsWith "gAAAAAB"
  | .enc _ => true

/-- `Fernet(key).encrypt`: always yields a token under `key`. -/
def fernetEncrypt (key : Nat) (p : String) : StoredValue :=
  .enc ⟨key, p⟩

/-- `Fernet(key).decrypt`: succeeds exactly on tokens produced under the
same key; raising `InvalidToken` is the `none` case. -/
def fernetDecrypt (key : Nat) : StoredValue → Option String
  | .enc c => if c.key = key then some c.payload else none
  | .raw _ => none

/-- `analytics.load_data.safe_decrypt` applied to one stored value.
Returns the result string, the warning flag after the call, and whether
this call printed the migration warning (it does so only when decryption
of a marked value fails while the flag is still unset). -/
def safe_decrypt (key : Nat) (warned : Bool) (v : StoredValue) :
    String × Bool × Bool :=
  if hasMarker v then
    match fernetDecrypt key v with
    | some p => (p, warned, false)
    | none => ("[DECRYPTION_ERROR]", true, !warned)
  else (v.toStr, warned, false)

/-- One run of the decrypting column pass of `analytics.load_data`:
threads the closure's `warning_printed` flag (initially unset, because
`safe_decrypt` is redefined on every `load_data` call) and counts
warnings printed. -/
def warnCount (key : Nat) (warned : Bool) : List StoredValue → Bool × Nat
  | [] => (warned, 0)
  | v :: vs =>
    let r := safe_decrypt key warned v
    let rest := warnCount key r.2.1 vs
    (rest.1, (if r.2.2 then 1 else 0) + rest.2)

/-- Warnings printed by a single `load_data` invocation over a column. -/
def loadDataWarnings (key : Nat) (vs : List StoredValue) : Nat :=
  (warnCount key false vs).2

/-- Warnings printed over a process lifetime consisting of a sequence of
`load_data` invocations; each invocation rebuilds `safe_decrypt`, so each
starts with the flag unset. -/
def processWarnings (key : Nat) (runs : List (List StoredValue)) : Nat :=
  (runs.map (loadDataWarnings key)).sum

/-! ### Key store and security manager state (`security.py`) -/

/-- One persisted key artifact (`store_key_securely`); `created_at` also
stands for the file ctime `load_current_key` sorts by (key files are
written at creation). -/
structure KeyRecord where
  key_id : Nat
  key : Nat
  created_at : Nat
  expires_at : Nat
  deriving DecidableEq

/-- One row of the `queries` table. -/
structure QueryRow where
  id : Nat
  query : StoredValue
  answer : StoredValue
  timestamp : Nat
  deriving DecidableEq

/-- The mutable state of `SecurityManager` together with the stores it
touches: the in-memory active key and rotation deadline, the persisted
key artifacts, the `queries` table, and the two config values the
modelled operations read. -/
structure SecurityState where
  current_key : Option Nat
  key_rotation_date : Option Nat
  keys : List KeyRecord
  rows : List QueryRow
  key_rotation_days : Nat
  retention_days : Nat
  deriving DecidableEq

/-- The `key_files.sort(key=getctime, reverse=True)` + `[0]` selection of
`load_current_key`: the key record with the greatest `created_at`
(first in list order on ties). -/
def newestKey : List KeyRecord → Option KeyRecord
  | [] => none
  | k :: ks =>
    match newestKey ks with
    | none => some k
    | some m => if k.created_at ≥ m.created_at then some k else some m

/-- `SecurityManager.load_current_key`: loads only the newest key file
and returns it unless `datetime.now() > expires_at`; it never looks at
older key files. -/
def load_current_key (keys : List KeyRecord) (now : Nat) : Option KeyRecord :=
  match newestKey keys with
  | none => none
  | some kr => if now > kr.expires_at then none else some kr

/-- `SecurityManager.get_cipher`: uses the in-memory key if set, else
loads the newest persisted key, else generates a fresh key (`fid`,
`fkey` are the randomness) and persists it.  Returns the key the cipher
is built from and the updated state. -/
def get_cipher (st : SecurityState) (now : Nat) (fid fkey : Nat) :
    Nat × SecurityState :=
  match st.current_key with
  | some k => (k, st)
  | none =>
    match load_current_key st.keys now with
    | some kr =>
      (kr.key, { st with current_key := some kr.key,
                         key_rotation_date := some kr.expires_at })
    | none =>
      (fkey, { st with current_key := some fkey,
                       keys := st.keys ++
                         [⟨fid, fkey, now, now + st.key_rotation_days⟩] })

/-- The per-row body of `SecurityManager._reencrypt_all_data`: with an
old cipher, decrypt both fields under it and re-encrypt under the new
key; any failure skips the row (`except` → row left as it was).  With no
old cipher the stored strings are treated as plaintext and encrypted. -/
def reencRow : Option Nat → Nat → QueryRow → QueryRow
  | some ok, newKey, r =>
    match fernetDecrypt ok r.query, fernetDecrypt ok r.answer with
    | some q, some a => { r with query := fernetEncrypt newKey q,
                                 answer := fernetEncrypt newKey a }
    | _, _ => r
  | none, newKey, r =>
    { r with query := fernetEncrypt newKey r.query.toStr,
             answer := fernetEncrypt newKey r.answer.toStr }

/-- `SecurityManager._reencrypt_all_data` over the whole `queries`
table. -/
def reencrypt_all_data (oldKey : Option Nat) (newKey : Nat)
    (rows : List QueryRow) : List QueryRow :=
  rows.map (reencRow oldKey newKey)

/-- `SecurityManager.rotate_key` on the success path: generate and
persist a new key (`fid`, `fkey` are the randomness), re-encrypt every
row with it, make it the in-memory active key, and advance the rotation
deadline. -/
def rotate_key (st : SecurityState) (now fid fkey : Nat) : SecurityState :=
  { st with
    current_key := some fkey,
    key_rotation_date := some (now + st.key_rotation_days),
    keys := st.keys ++ [⟨fid, fkey, now, now + st.key_rotation_days⟩],
    rows := reencrypt_all_data st.current_key fkey st.rows }

/-- `SecurityManager.rotate_key_if_needed`: no-op without a recorded
deadline or before it; otherwise performs the rotation. -/
def rotate_key_if_needed (st : SecurityState) (now fid fkey : Nat) :
    Bool × SecurityState :=
  match st.key_rotation_date with
  | none => (false, st)
  | some d => if now ≥ d then (true, rotate_key st now fid fkey) else (false, st)

/-- `SecurityManager.check_data_retention`: counts rows with
`timestamp < now - retention_days`, deletes them when there are any, and
returns the count deleted. -/
def check_data_retention (st : SecurityState) (now : Nat) :
    Nat × SecurityState :=
  let cutoff := now - st.retention_days
  let expired := st.rows.filter (fun r => r.timestamp < cutoff)
  if expired.length > 0 then
    (expired.length, { st with rows := st.rows.filter (fun r => ¬ r.timestamp < cutoff) })
  else (0, st)

/-! ### Error analysis ledger (`error_analysis.py`) -/

/-- The `ErrorSeverity` enum. -/
inductive ErrorSeverity
  | critical
  | high
  | medium
  | low
  | info
  deriving DecidableEq

/-- `self.alert_thresholds.get(severity, 100)`: the dict maps
critical/high/medium/low; `info` is absent and takes the `.get`
default 100. -/
def alertThreshold : ErrorSeverity → Nat
  | .critical => 1
  | .high => 5
  | .medium => 20
  | .low => 100
  | .info => 100

/-- One row of the `errors` table (the columns the modelled operations
read). -/
structure ErrorRow where
  severity : ErrorSeverity
  component : String
  error_type : String
  error_message : String
  timestamp : Nat
  deriving DecidableEq

/-- One row of the `error_patterns` table.  The `pattern_hash` of
`_update_error_patterns` is `md5(f"{error_type}:{component}:{message[:100]}")`;
it is modelled by the hashed triple itself (md5 treated as injective). -/
structure PatternRow where
  pattern_key : String × String × String
  occurrence_count : Nat
  severity : ErrorSeverity
  first_seen : Nat
  last_seen : Nat
  deriving DecidableEq

/-- One row of the `error_alerts` table. -/
structure AlertRow where
  alert_type : String
  severity : ErrorSeverity
  error_count : Nat
  component : String
  deriving DecidableEq

/-- The three tables of `error_analysis.db` the modelled operations
touch. -/
structure ErrorState where
  errors : List ErrorRow
  patterns : List PatternRow
  alerts : List AlertRow
  deriving DecidableEq

/-- `ErrorAnalysisManager._update_error_patterns`: bump the count and
`last_seen` of the matching pattern, or insert a fresh one. -/
def update_error_patterns (st : ErrorState) (et comp : String)
    (sev : ErrorSeverity) (msg : String) (now : Nat) : ErrorState :=
  let key : String × String × String := (et, comp, msg.take 100)
  if st.patterns.any (fun p => p.pattern_key == key) then
    { st with patterns := st.patterns.map fun p =>
        if p.pattern_key == key then
          { p with occurrence_count := p.occurrence_count + 1, last_seen := now }
        else p }
  else
    { st with patterns := st.patterns ++ [⟨key, 1, sev, now, now⟩] }

/-- `ErrorAnalysisManager._check_alert_conditions`: counts the errors of
this severity (over every component) in the trailing one-hour window and
inserts an alert whenever the count has reached the threshold.  Time is
in hours, so the window is `timestamp > now - 1`. -/
def check_alert_conditions (st : ErrorState) (sev : ErrorSeverity)
    (comp : String) (now : Nat) : ErrorState :=
  let since := now - 1
  let error_count :=
    (st.errors.filter (fun e => e.severity == sev && since < e.timestamp)).length
  if error_count ≥ alertThreshold sev then
    { st with alerts := st.alerts ++ [⟨"high_error_rate", sev, error_count, comp⟩] }
  else st

/-- `ErrorAnalysisManager.log_error` on the success path: insert the
error row, update the pattern table, then evaluate alert conditions. -/
def log_error (st : ErrorState) (et msg comp : String) (sev : ErrorSeverity)
    (now : Nat) : ErrorState :=
  let st1 := { st with errors := st.errors ++ [ErrorRow.mk sev comp et msg now] }
  let st2 := update_error_patterns st1 et comp sev msg now
  check_alert_conditions st2 sev comp now

/-- The scenario of the alert claim: `n` identical high-severity errors
for one component logged at hour 100, starting from empty tables. -/
def logHighN : Nat → ErrorState
  | 0 => ⟨[], [], []⟩
  | n + 1 => log_error (logHighN n) "RuntimeError" "boom" "chatbot" .high 100

/-! ### Security configuration loading (`security.py::_load_config`) -/

/-- A JSON-ish configuration value. -/
inductive ConfigValue
  | int (n : Int)
  | str (s : String)
  | bool (b : Bool)
  deriving DecidableEq

/-- A Python dict in insertion order. -/
abbrev ConfigMap := List (String × ConfigValue)

/-- Dict lookup (first occurrence of the key). -/
def cfgLookup : ConfigMap → String → Option ConfigValue
  | [], _ => none
  | (k, v) :: rest, key => if k = key then some v else cfgLookup rest key

/-- `d[key] = v` on a Python dict: replace in place when the key exists,
append otherwise. -/
def dictInsert (m : ConfigMap) (key : String) (v : ConfigValue) : ConfigMap :=
  if m.any (fun kv => kv.1 = key) then
    m.map (fun kv => if kv.1 = key then (kv.1, v) else kv)
  else m ++ [(key, v)]

/-- `base.update(user)` on Python dicts. -/
def dictUpdate (base user : ConfigMap) : ConfigMap :=
  user.foldl (fun m kv => dictInsert m kv.1 kv.2) base

/-- The `default_config` literal of `SecurityManager._load_config`. -/
def default_config : ConfigMap :=
  [("key_rotation_days", .int 90),
   ("max_failed_attempts", .int 5),
   ("session_timeout_minutes", .int 30),
   ("data_retention_days", .int 2555),
   ("encryption_algorithm", .str "AES-256-GCM"),
   ("audit_log_level", .str "INFO"),
   ("require_https", .bool true),
   ("enable_rate_limiting", .bool true),
   ("max_queries_per_hour", .int 100)]

/-- `SecurityManager._load_config`: `none` is a missing config file,
`some none` a file whose load raised (both keep the defaults), and
`some (some user)` a parsed file, merged with `dict.update`. -/
def load_config (file : Option (Option ConfigMap)) : ConfigMap :=
  match file with
  | none => default_config
  | some none => default_config
  | some (some user) => dictUpdate default_config user

/-! ### Concrete inputs used by counterexamples and witnesses -/

/-- A single granted, unwithdrawn consent record. -/
def demoConsentRec : ConsentRecord :=
  ⟨"u1", "s1", "data_processing", true, 5, none, none⟩

/-- An older granted record for `("u1", "data_processing")`. -/
def cRec1 : ConsentRecord := ⟨"u1", "s1", "data_processing", true, 1, none, none⟩

/-- A newer granted record for the same `(user, type)`; the authoritative
one. -/
def cRec2 : ConsentRecord := ⟨"u1", "s2", "data_processing", true, 2, none, none⟩

/-- A consent store holding two live records for the same user and
type. -/
def cDemoDb : List ConsentRecord := [cRec1, cRec2]

/-- A token encrypted under key 1, undecryptable under the process key
0. -/
def badVal : StoredValue := .enc ⟨1, "x"⟩

/-- An older key that is still unexpired at time 10. -/
def kA : KeyRecord := ⟨1, 11, 1, 100⟩

/-- A newer key that is already expired at time 10. -/
def kB : KeyRecord := ⟨2, 22, 2, 5⟩

/-- A key store holding an expired newest key above an unexpired older
one. -/
def demoKeys : List KeyRecord := [kA, kB]

/-- A row whose two fields are encrypted under key 7. -/
def demoRow : QueryRow := ⟨1, fernetEncrypt 7 "q", fernetEncrypt 7 "a", 0⟩

/-- A security state with active key 7 and a rotation due at time 50. -/
def demoSecState : SecurityState :=
  ⟨some 7, some 50, [⟨1, 7, 1, 50⟩], [demoRow], 90, 2555⟩

/-- A security state with no in-memory key over the `demoKeys` store. -/
def demoEmptySec : SecurityState := ⟨none, none, demoKeys, [], 90, 2555⟩

/-! ## Theorems settling the claims -/

/-- C1: `check_consent(user_id, consent_type)` returns false when there
is no record for `(user_id, consent_type)`, when the most recent such
record is withdrawn, and when it is older than `data_retention_days`;
it returns true exactly when the most recent record is granted, not
withdrawn, and not expired. -/
theorem check_consent_spec (db : List ConsentRecord) (now : Nat) (uid ty : String) :
    (latestFor db uid ty = none → check_consent (.ok db) now uid ty = false) ∧
    (∀ r, latestFor db uid ty = some r → r.withdrawal_timestamp ≠ none →
      check_consent (.ok db) now uid ty = false) ∧
    (∀ r, latestFor db uid ty = some r →
      now - r.consent_timestamp > data_retention_days →
      check_consent (.ok db) now uid ty = false) ∧
    (check_consent (.ok db) now uid ty = true ↔
      ∃ r, latestFor db uid ty = some r ∧ r.consent_given = true ∧
        r.withdrawal_timestamp = none ∧
        now - r.consent_timestamp ≤ data_retention_days) := by
  refine ⟨?_, ?_, ?_, ?_⟩
  · intro h
    simp [check_consent, check_consent_on, h]
  · intro r h hw
    have hs : r.withdrawal_timestamp.isSome := Option.ne_none_iff_isSome.mp hw
    simp [check_consent, check_consent_on, h, hs]
  · intro r h hexp
    by_cases hs : r.withdrawal_timestamp.isSome
    · simp [check_consent, check_consent_on, h, hs]
    · simp [check_consent, check_consent_on, h, hs, hexp]
  · cases h : latestFor db uid ty with
    | none => simp [check_consent, check_consent_on, h]
    | some r =>
      simp only [check_consent, check_consent_on, h]
      constructor
      · intro ht
        by_cases hs : r.withdrawal_timestamp.isSome
        · simp [hs] at ht
        · by_cases hexp : now - r.consent_timestamp > data_retention_days
          · simp [hs, hexp] at ht
          · exact ⟨r, rfl, by simpa [hs, hexp] using ht,
              Option.not_isSome_iff_eq_none.mp hs, Nat.le_of_not_lt hexp⟩
      · rintro ⟨r', hr', hg, hw, hexp⟩
        have : r' = r := (Option.some_inj.mp hr').symm
        subst this
        simp [hw, Nat.not_lt_of_le hexp, hg]

/-- Witness for C1 at a concrete store: a single granted record at time 5
checked at time 6. -/
theorem check_consent_spec_witness :
    check_consent (.ok [demoConsentRec]) 6 "u1" "data_processing" = true :=
  ((check_consent_spec [demoConsentRec] 6 "u1" "data_processing").2.2.2).mpr
    ⟨demoConsentRec, by decide, by decide, by decide, by decide⟩

/-- C7: decrypting the encryption of any plaintext under the active key
returns the plaintext, both through the raw Fernet cipher and through
`safe_decrypt` (Fernet tokens carry the recognized marker, so
`safe_decrypt` routes them to the cipher). -/
theorem encrypt_decrypt_roundtrip (k : Nat) (p : String) (w : Bool) :
    (safe_decrypt k w (fernetEncrypt k p)).1 = p ∧
    fernetDecrypt k (fernetEncrypt k p) = some p := by
  constructor <;> simp [safe_decrypt, fernetEncrypt, fernetDecrypt, hasMarker]

/-- C10: `check_consent` fails closed: whenever the consent-store read
raises, the result is `false` for every user and consent type. -/
theorem check_consent_fails_closed (e : String) (now : Nat) (uid ty : String) :
    check_consent (.error e) now uid ty = false := rfl

/-- Applying the withdrawal row update twice is the same as applying it
once: a record the first pass marked has `withdrawal_timestamp` set, so
the second pass leaves it alone. -/
theorem withdrawRow_idem (n1 n2 : Nat) (s1 s2 uid ty : String) (r : ConsentRecord) :
    withdrawRow n2 s2 uid ty (withdrawRow n1 s1 uid ty r) = withdrawRow n1 s1 uid ty r := by
  unfold withdrawRow
  by_cases h : (matchesConsent uid ty r && r.withdrawal_timestamp.isNone) = true
  · simp only [if_pos h]
    rw [if_neg]
    simp [matchesConsent]
  · simp only [if_neg h]

/-- C5 counterexample: with two live granted records for
`("u1", "data_processing")`, the authoritative record is the newer
`cRec2`, yet `withdraw_consent` also rewrites the older record `cRec1`
(position 0), contradicting "sets withdrawn_at on the current
authoritative consent record only, leaving every other consent record
unchanged". -/
theorem withdraw_consent_counterexample :
    latestFor cDemoDb "u1" "data_processing" = some cRec2 ∧
    cRec1 ≠ cRec2 ∧
    cDemoDb.head? = some cRec1 ∧
    (withdraw_consent cDemoDb 10 "test" "u1" "data_processing").head? =
      some { cRec1 with withdrawal_timestamp := some 10,
                        withdrawal_reason := some "test" } := by
  decide

/-- C5 amended: `withdraw_consent` sets `withdrawal_timestamp` on every
non-withdrawn record for `(user_id, consent_type)` — the authoritative
one included — leaves records of other users or types and
already-withdrawn records unchanged, and a second call is an idempotent
no-op that does not raise and does not change any existing
`withdrawal_timestamp`. -/
theorem withdraw_consent_amended (db : List ConsentRecord) (n1 n2 : Nat)
    (s1 s2 uid ty : String) :
    withdraw_consent (withdraw_consent db n1 s1 uid ty) n2 s2 uid ty
      = withdraw_consent db n1 s1 uid ty ∧
    (∀ i r, db.get? i = some r →
      (matchesConsent uid ty r = false ∨ r.withdrawal_timestamp ≠ none) →
      (withdraw_consent db n1 s1 uid ty).get? i = some r) ∧
    (∀ i r, db.get? i = some r → matchesConsent uid ty r = true →
      r.withdrawal_timestamp = none →
      (withdraw_consent db n1 s1 uid ty).get? i =
        some { r with withdrawal_timestamp := some n1,
                      withdrawal_reason := some s1 }) := by
  refine ⟨?_, ?_, ?_⟩
  · unfold withdraw_consent
    rw [List.map_map]
    exact List.map_congr_left fun r _ => withdrawRow_idem n1 n2 s1 s2 uid ty r
  · intro i r hr hcond
    unfold withdraw_consent
    rw [List.get?_map, hr]
    have : withdrawRow n1 s1 uid ty r = r := by
      unfold withdrawRow
      rw [if_neg]
      rcases hcond with h | h
      · simp [h]
      · simp [Option.isNone_iff_eq_none, h]
    rw [Option.map_some', this]
  · intro i r hr hm hw
    unfold withdraw_consent
    rw [List.get?_map, hr, Option.map_some']
    unfold withdrawRow
    rw [if_pos (by simp [hm, hw])]

/-- Witness for C5 at the two-record store: both live records are marked
by the first call and the second call changes nothing. -/
theorem withdraw_consent_amended_witness :
    withdraw_consent (withdraw_consent cDemoDb 10 "a" "u1" "data_processing")
        11 "b" "u1" "data_processing"
      = withdraw_consent cDemoDb 10 "a" "u1" "data_processing" ∧
    (withdraw_consent cDemoDb 10 "a" "u1" "data_processing").get? 1 =
      some { cRec2 with withdrawal_timestamp := some 10,
                        withdrawal_reason := some "a" } :=
  ⟨(withdraw_consent_amended cDemoDb 10 11 "a" "b" "u1" "data_processing").1,
   (withdraw_consent_amended cDemoDb 10 11 "a" "b" "u1" "data_processing").2.2
     1 cRec2 (by decide) (by decide) (by decide)⟩

/-- After a call that printed the migration warning the closure flag is
set and the flag never clears within the run. -/
theorem safe_decrypt_warned_stays (key : Nat) (v : StoredValue) :
    (safe_decrypt key true v).2.1 = true ∧ (safe_decrypt key true v).2.2 = false := by
  unfold safe_decrypt
  by_cases hm : hasMarker v
  · simp only [if_pos hm]
    cases fernetDecrypt key v <;> simp
  · simp [hm]

/-- A run whose flag is already set prints no further warnings. -/
theorem warnCount_true (key : Nat) (vs : List StoredValue) :
    (warnCount key true vs).2 = 0 := by
  induction vs with
  | nil => rfl
  | cons v vs ih =>
    simp [warnCount, (safe_decrypt_warned_stays key v).1,
      (safe_decrypt_warned_stays key v).2, ih]

/-- Any single decrypting pass prints at most one warning. -/
theorem warnCount_false_le_one (key : Nat) (vs : List StoredValue) :
    (warnCount key false vs).2 ≤ 1 := by
  induction vs with
  | nil => simp [warnCount]
  | cons v vs ih =>
    by_cases he : (safe_decrypt key false v).2.2 = true
    · have hw : (safe_decrypt key false v).2.1 = true := by
        unfold safe_decrypt at he ⊢
        by_cases hm : hasMarker v
        · simp only [if_pos hm] at he ⊢
          cases hd : fernetDecrypt key v <;> simp [hd] at he ⊢
        · simp [hm] at he
      simp [warnCount, he, hw, warnCount_true]
    · have hw : (safe_decrypt key false v).2.1 = false := by
        unfold safe_decrypt at he ⊢
        by_cases hm : hasMarker v
        · simp only [if_pos hm] at he ⊢
          cases hd : fernetDecrypt key v <;> simp [hd] at he ⊢
        · simp [hm]
      simpa [warnCount, he, hw] using ih

/-- C2 counterexample: a process whose lifetime consists of two
`load_data` invocations, each hitting one undecryptable marked value,
prints the migration warning twice — the flag lives on the `safe_decrypt`
closure that `load_data` recreates on every call, so the warning is not
once per process lifetime. -/
theorem safe_decrypt_warning_counterexample :
    processWarnings 0 [[badVal], [badVal]] = 2 ∧
    ¬ processWarnings 0 [[badVal], [badVal]] ≤ 1 := by
  decide

/-- C2 amended: a stored value without the recognized marker is returned
unchanged (and the total function raises nothing); a marked value whose
cryptographic decryption fails yields the `"[DECRYPTION_ERROR]"`
sentinel; and the warning is emitted at most once per `load_data`
invocation (not per process lifetime). -/
theorem safe_decrypt_amended (key : Nat) (vs : List StoredValue)
    (v : StoredValue) (w : Bool) :
    (hasMarker v = false → safe_decrypt key w v = (v.toStr, w, false)) ∧
    (hasMarker v = true → fernetDecrypt key v = none →
      safe_decrypt key w v = ("[DECRYPTION_ERROR]", true, !w)) ∧
    loadDataWarnings key vs ≤ 1 := by
  refine ⟨?_, ?_, ?_⟩
  · intro h
    simp [safe_decrypt, h]
  · intro hm hd
    simp [safe_decrypt, hm, hd]
  · exact warnCount_false_le_one key vs

/-- Witness for C2 amended: a plain value passes through, the bad token
yields the sentinel, and a run over two bad tokens warns at most once. -/
theorem safe_decrypt_amended_witness :
    safe_decrypt 0 false (StoredValue.raw "hello") = ("hello", false, false) ∧
    safe_decrypt 0 false badVal = ("[DECRYPTION_ERROR]", true, true) ∧
    loadDataWarnings 0 [badVal, badVal] ≤ 1 :=
  ⟨(safe_decrypt_amended 0 [badVal, badVal] (StoredValue.raw "hello") false).1 (by decide),
   (safe_decrypt_amended 0 [badVal, badVal] badVal false).2.1 (by decide) (by decide),
   (safe_decrypt_amended 0 [badVal, badVal] badVal false).2.2⟩

/-- Helper: a row both of whose fields decrypt under the old key is
rewritten by the re-encryption pass to the same plaintexts under the new
key. -/
theorem reencRow_decrypts (ok fkey : Nat) (r : QueryRow) (q a : String)
    (hq : fernetDecrypt ok r.query = some q)
    (ha : fernetDecrypt ok r.answer = some a) :
    reencRow (some ok) fkey r =
      { r with query := fernetEncrypt fkey q, answer := fernetEncrypt fkey a } := by
  simp only [reencRow]
  rw [hq, ha]

/-- C3: when a due rotation runs to completion, the state reports the
rotation, the freshly generated key is the active key, the previous key
is no longer active, and every row of the store both of whose fields
were decryptable under the previous active key is decryptable under the
new key (to the same plaintexts). -/
theorem rotate_key_reencrypts (st : SecurityState) (now fid fkey ok d : Nat)
    (hd : st.key_rotation_date = some d) (hdue : d ≤ now)
    (hok : st.current_key = some ok) (hne : fkey ≠ ok) :
    (rotate_key_if_needed st now fid fkey).1 = true ∧
    (rotate_key_if_needed st now fid fkey).2.current_key = some fkey ∧
    (rotate_key_if_needed st now fid fkey).2.current_key ≠ st.current_key ∧
    (rotate_key_if_needed st now fid fkey).2.rows
      = st.rows.map (reencRow (some ok) fkey) ∧
    ∀ r ∈ st.rows,
      (fernetDecrypt ok r.query).isSome → (fernetDecrypt ok r.answer).isSome →
      fernetDecrypt fkey (reencRow (some ok) fkey r).query
        = fernetDecrypt ok r.query ∧
      fernetDecrypt fkey (reencRow (some ok) fkey r).answer
        = fernetDecrypt ok r.answer := by
  have hrun : rotate_key_if_needed st now fid fkey
      = (true, rotate_key st now fid fkey) := by
    unfold rotate_key_if_needed
    rw [hd]
    simp [Nat.le_of_eq rfl |>.trans hdue, hdue]
  refine ⟨by rw [hrun], by rw [hrun]; rfl, ?_, ?_, ?_⟩
  · rw [hrun, hok]
    simp [rotate_key]
    exact hne
  · rw [hrun]
    show reencrypt_all_data st.current_key fkey st.rows = _
    rw [hok]
    rfl
  · intro r _ hq ha
    obtain ⟨q, hq'⟩ := Option.isSome_iff_exists.mp hq
    obtain ⟨a, ha'⟩ := Option.isSome_iff_exists.mp ha
    rw [reencRow_decrypts ok fkey r q a hq' ha', hq', ha']
    constructor <;> simp [fernetEncrypt, fernetDecrypt]

/-- Witness for C3: the demo state with active key 7 and a rotation due
at 50 is rotated at time 60 to the fresh key 8. -/
theorem rotate_key_reencrypts_witness :
    demoSecState.key_rotation_date = some 50 ∧ (50 : Nat) ≤ 60 ∧
    demoSecState.current_key = some 7 ∧ (8 : Nat) ≠ 7 ∧
    (rotate_key_if_needed demoSecState 60 2 8).1 = true ∧
    (rotate_key_if_needed demoSecState 60 2 8).2.current_key = some 8 :=
  ⟨by decide, by decide, by decide, by decide,
   (rotate_key_reencrypts demoSecState 60 2 8 7 50 (by decide) (by decide)
     (by decide) (by decide)).1,
   (rotate_key_reencrypts demoSecState 60 2 8 7 50 (by decide) (by decide)
     (by decide) (by decide)).2.1⟩

/-- Rows kept by the purge satisfy none of the purge condition, so a
second purge over them selects nothing. -/
theorem filter_neg_filter {α : Type} (p : α → Prop) [DecidablePred p] (l : List α) :
    ((l.filter fun a => ¬ p a).filter fun a => p a) = [] := by
  induction l with
  | nil => rfl
  | cons a l ih => by_cases h : p a <;> simp [h, ih]

/-- When nothing satisfies the purge condition, keeping the complement
keeps everything. -/
theorem filter_neg_of_none {α : Type} (p : α → Prop) [DecidablePred p] (l : List α)
    (h : (l.filter fun a => p a).length = 0) : (l.filter fun a => ¬ p a) = l := by
  have hnil : (l.filter fun a => p a) = [] := List.length_eq_zero.mp h
  have hall : ∀ a ∈ l, ¬ p a := by
    intro a ha
    by_contra hpa
    have hmem : a ∈ l.filter fun a => p a := List.mem_filter.mpr ⟨ha, by simpa using hpa⟩
    rw [hnil] at hmem
    exact absurd hmem (List.not_mem_nil a)
  exact List.filter_eq_self.mpr fun a ha => by simpa using hall a ha

/-- C8: `check_data_retention` deletes exactly the rows with
`timestamp < now - retention_days` and returns their count; run again at
the same instant with no intervening writes, the second call deletes 0
and returns 0. -/
theorem check_data_retention_idempotent (st : SecurityState) (now : Nat) :
    (check_data_retention st now).1 =
      (st.rows.filter fun r => r.timestamp < now - st.retention_days).length ∧
    (check_data_retention st now).2.rows =
      (st.rows.filter fun r => ¬ r.timestamp < now - st.retention_days) ∧
    (check_data_retention (check_data_retention st now).2 now).1 = 0 := by
  have key : ∀ s : SecurityState, check_data_retention s now =
      ((s.rows.filter fun r => r.timestamp < now - s.retention_days).length,
       if (s.rows.filter fun r => r.timestamp < now - s.retention_days).length > 0 then
         { s with rows := s.rows.filter fun r => ¬ r.timestamp < now - s.retention_days }
       else s) := by
    intro s
    unfold check_data_retention
    by_cases h : (s.rows.filter fun r => r.timestamp < now - s.retention_days).length > 0
    · simp [h]
    · have h0 : (s.rows.filter fun r => r.timestamp < now - s.retention_days).length = 0 :=
        Nat.eq_zero_of_not_pos h
      simp [h, h0]
  by_cases h : (st.rows.filter fun r => r.timestamp < now - st.retention_days).length > 0
  · refine ⟨by rw [key st], ?_, ?_⟩
    · rw [key st]
      simp only [if_pos h]
    · rw [key st]
      simp only [if_pos h]
      rw [key _]
      dsimp only
      rw [filter_neg_filter]
      rfl
  · have h0 : (st.rows.filter fun r => r.timestamp < now - st.retention_days).length = 0 :=
      Nat.eq_zero_of_not_pos h
    refine ⟨by rw [key st], ?_, ?_⟩
    · rw [key st]
      simp only [if_neg h]
      exact (filter_neg_of_none _ _ h0).symm
    · rw [key st]
      simp only [if_neg h]
      rw [key st]
      exact h0

/-- Helper: the newest-first selection comes up empty only on an empty
key store. -/
theorem newestKey_eq_none (ks : List KeyRecord) (h : newestKey ks = none) :
    ks = [] := by
  cases ks with
  | nil => rfl
  | cons b bs =>
    exfalso
    simp only [newestKey] at h
    split at h
    · exact Option.noConfusion h
    · split at h <;> exact Option.noConfusion h

/-- Helper: the key selected by the newest-first sort is a stored key of
maximal creation time. -/
theorem newestKey_spec (keys : List KeyRecord) (kr : KeyRecord)
    (h : newestKey keys = some kr) :
    kr ∈ keys ∧ ∀ k ∈ keys, k.created_at ≤ kr.created_at := by
  induction keys generalizing kr with
  | nil => simp [newestKey] at h
  | cons a ks ih =>
    simp only [newestKey] at h
    split at h
    · rename_i hm
      obtain rfl : a = kr := Option.some_inj.mp h
      have hks : ks = [] := newestKey_eq_none ks hm
      subst hks
      exact ⟨List.mem_singleton_self a, by simp⟩
    · rename_i m hm
      split at h
      · rename_i hc
        obtain rfl : a = kr := Option.some_inj.mp h
        refine ⟨List.mem_cons_self a ks, ?_⟩
        intro k hk
        rcases List.mem_cons.mp hk with hk | hk
        · exact hk ▸ Nat.le_refl _
        · exact Nat.le_trans ((ih m hm).2 k hk) hc
      · rename_i hc
        obtain rfl : m = kr := Option.some_inj.mp h
        refine ⟨List.mem_cons_of_mem a (ih m hm).1, ?_⟩
        intro k hk
        rcases List.mem_cons.mp hk with hk | hk
        · exact hk ▸ Nat.le_of_lt (Nat.lt_of_not_le hc)
        · exact (ih m hm).2 k hk

/-- C6 counterexample: with an expired newest key `kB` above the still
unexpired older key `kA`, `load_current_key` returns none at time 10
although a persisted key with `expires_at > now` exists — it does not
select the newest among the valid keys. -/
theorem load_current_key_counterexample :
    load_current_key demoKeys 10 = none ∧
    kA ∈ demoKeys ∧ 10 < kA.expires_at := by
  decide

/-- C6 amended: `load_current_key` inspects only the newest persisted
key (by creation time): it returns that key when it is unexpired and
none otherwise, even when an older unexpired key exists; when it returns
none, `get_cipher` generates a fresh key, persists it, and treats it as
active. -/
theorem load_current_key_amended (keys : List KeyRecord) (now : Nat)
    (kr : KeyRecord) (st : SecurityState) (fid fkey : Nat)
    (hnew : newestKey keys = some kr)
    (hcur : st.current_key = none) (hkeys : st.keys = keys) :
    (kr ∈ keys ∧ ∀ k ∈ keys, k.created_at ≤ kr.created_at) ∧
    load_current_key keys now = (if now > kr.expires_at then none else some kr) ∧
    (load_current_key keys now = none →
      (get_cipher st now fid fkey).1 = fkey ∧
      (get_cipher st now fid fkey).2.current_key = some fkey ∧
      (get_cipher st now fid fkey).2.keys =
        keys ++ [⟨fid, fkey, now, now + st.key_rotation_days⟩]) := by
  refine ⟨newestKey_spec keys kr hnew, ?_, ?_⟩
  · unfold load_current_key
    rw [hnew]
  · intro hnone
    unfold get_cipher
    rw [hcur, hkeys, hnone]
    exact ⟨rfl, rfl, rfl⟩

/-- Witness for C6 amended: over the demo store the newest key `kB` is
expired at time 10, so `get_cipher` falls back to generating and
activating the fresh key 33. -/
theorem load_current_key_amended_witness :
    newestKey demoKeys = some kB ∧ demoEmptySec.current_key = none ∧
    demoEmptySec.keys = demoKeys ∧ load_current_key demoKeys 10 = none ∧
    (get_cipher demoEmptySec 10 3 33).1 = 33 ∧
    (get_cipher demoEmptySec 10 3 33).2.current_key = some 33 :=
  ⟨by decide, by decide, by decide, by decide,
   ((load_current_key_amended demoKeys 10 kB demoEmptySec 3 33 (by decide)
     (by decide) (by decide)).2.2 (by decide)).1,
   ((load_current_key_amended demoKeys 10 kB demoEmptySec 3 33 (by decide)
     (by decide) (by decide)).2.2 (by decide)).2.1⟩

/-- Helper: the pattern-table update touches neither the error rows nor
the alerts. -/
theorem update_error_patterns_frame (st : ErrorState) (et comp : String)
    (sev : ErrorSeverity) (msg : String) (now : Nat) :
    (update_error_patterns st et comp sev msg now).errors = st.errors ∧
    (update_error_patterns st et comp sev msg now).alerts = st.alerts := by
  unfold update_error_patterns
  by_cases h : st.patterns.any
      (fun p => p.pattern_key == (et, comp, msg.take 100)) <;> simp [h]

/-- Helper: the alert check leaves the error rows alone and appends one
alert exactly when the trailing-window count of this severity has
reached the threshold. -/
theorem check_alert_conditions_spec (st : ErrorState) (sev : ErrorSeverity)
    (comp : String) (now : Nat) :
    (check_alert_conditions st sev comp now).errors = st.errors ∧
    (check_alert_conditions st sev comp now).alerts =
      (if (st.errors.filter
            (fun e => e.severity == sev && now - 1 < e.timestamp)).length
          ≥ alertThreshold sev then
        st.alerts ++ [⟨"high_error_rate", sev,
          (st.errors.filter
            (fun e => e.severity == sev && now - 1 < e.timestamp)).length, comp⟩]
      else st.alerts) := by
  unfold check_alert_conditions
  by_cases h : (st.errors.filter
      (fun e => e.severity == sev && now - 1 < e.timestamp)).length
      ≥ alertThreshold sev <;> simp [h]

set_option maxRecDepth 4000

/-- C4 counterexample: logging 5 identical high-severity errors for one
component inside one hour creates exactly one alert, but the 6th creates
a second one — the code appends a per-threshold alert on every logged
error once the trailing-hour count has reached the threshold. -/
theorem alert_duplicate_counterexample :
    (logHighN 5).alerts.length = 1 ∧
    (logHighN 6).alerts.length = 2 ∧
    ¬ (logHighN 6).alerts.length = 1 := by
  refine ⟨by decide, by decide, by decide⟩

/-- C4 amended: the thresholds are critical 1, high 5, medium 20,
low 100 over a trailing 1-hour window; `log_error` appends the error row
and then appends one alert exactly when the trailing-window count of its
severity (over all components) has reached the threshold — so 5 high
errors in the hour create exactly one alert and the 6th creates a
second, duplicate, per-threshold alert. -/
theorem log_error_alert_amended (st : ErrorState) (et msg comp : String)
    (sev : ErrorSeverity) (now : Nat) :
    (alertThreshold .critical = 1 ∧ alertThreshold .high = 5 ∧
     alertThreshold .medium = 20 ∧ alertThreshold .low = 100) ∧
    (log_error st et msg comp sev now).errors
      = st.errors ++ [ErrorRow.mk sev comp et msg now] ∧
    ((log_error st et msg comp sev now).alerts =
      (if ((st.errors ++ [ErrorRow.mk sev comp et msg now]).filter
            (fun e => e.severity == sev && now - 1 < e.timestamp)).length
          ≥ alertThreshold sev then
        st.alerts ++ [⟨"high_error_rate", sev,
          ((st.errors ++ [ErrorRow.mk sev comp et msg now]).filter
            (fun e => e.severity == sev && now - 1 < e.timestamp)).length, comp⟩]
      else st.alerts)) ∧
    (logHighN 5).alerts.length = 1 ∧ (logHighN 6).alerts.length = 2 := by
  have hstep : log_error st et msg comp sev now
      = check_alert_conditions
          (update_error_patterns
            { st with errors := st.errors ++ [ErrorRow.mk sev comp et msg now] }
            et comp sev msg now) sev comp now := rfl
  refine ⟨⟨rfl, rfl, rfl, rfl⟩, ?_, ?_, by decide, by decide⟩
  · rw [hstep, (check_alert_conditions_spec _ sev comp now).1,
      (update_error_patterns_frame _ et comp sev msg now).1]
  · rw [hstep, (check_alert_conditions_spec _ sev comp now).2,
      (update_error_patterns_frame _ et comp sev msg now).1,
      (update_error_patterns_frame _ et comp sev msg now).2]

/-- Helper: dict lookup scans the left part first. -/
theorem cfgLookup_append (m1 m2 : ConfigMap) (k : String) :
    cfgLookup (m1 ++ m2) k =
      match cfgLookup m1 k with
      | some v => some v
      | none => cfgLookup m2 k := by
  induction m1 with
  | nil => rfl
  | cons kv m1 ih =>
    obtain ⟨k1, v1⟩ := kv
    by_cases h : k1 = k
    · simp [cfgLookup, h]
    · simp [cfgLookup, h, ih]

/-- Helper: replacing the value at one key does not affect lookups of
other keys. -/
theorem cfgLookup_mapReplace_ne (m : ConfigMap) (key k : String) (v : ConfigValue)
    (hne : k ≠ key) :
    cfgLookup (m.map fun kv => if kv.1 = key then (kv.1, v) else kv) k
      = cfgLookup m k := by
  induction m with
  | nil => rfl
  | cons kv m ih =>
    obtain ⟨k1, v1⟩ := kv
    by_cases h1 : k1 = key
    · have hk : ¬ k1 = k := by
        rw [h1]
        exact fun he => hne he.symm
      have hh : (if (k1, v1).1 = key then ((k1, v1).1, v)
          else ((k1, v1) : String × ConfigValue)) = (k1, v) := if_pos h1
      rw [List.map_cons, hh]
      simp [cfgLookup, hk, ih]
    · have hh : (if (k1, v1).1 = key then ((k1, v1).1, v)
          else ((k1, v1) : String × ConfigValue)) = (k1, v1) := if_neg h1
      rw [List.map_cons, hh]
      simp [cfgLookup, ih]

/-- Helper: replacing the value at a present key makes lookups of that
key return the new value. -/
theorem cfgLookup_mapReplace_eq (m : ConfigMap) (key : String) (v : ConfigValue)
    (hmem : m.any (fun kv => kv.1 = key) = true) :
    cfgLookup (m.map fun kv => if kv.1 = key then (kv.1, v) else kv) key
      = some v := by
  induction m with
  | nil => simp at hmem
  | cons kv m ih =>
    obtain ⟨k1, v1⟩ := kv
    by_cases h1 : k1 = key
    · have hh : (if (k1, v1).1 = key then ((k1, v1).1, v)
          else ((k1, v1) : String × ConfigValue)) = (k1, v) := if_pos h1
      rw [List.map_cons, hh]
      simp [cfgLookup, h1]
    · have hmem2 : m.any (fun kv => kv.1 = key) = true := by
        simpa [List.any_cons, h1] using hmem
      have hh : (if (k1, v1).1 = key then ((k1, v1).1, v)
          else ((k1, v1) : String × ConfigValue)) = (k1, v1) := if_neg h1
      rw [List.map_cons, hh]
      simp [cfgLookup, h1, ih hmem2]

/-- Helper: a key on which `any` fails is absent. -/
theorem cfgLookup_none_of_any_false (m : ConfigMap) (key : String)
    (h : m.any (fun kv => kv.1 = key) = false) : cfgLookup m key = none := by
  induction m with
  | nil => rfl
  | cons kv m ih =>
    obtain ⟨k1, v1⟩ := kv
    simp only [List.any_cons, Bool.or_eq_false_iff] at h
    have h1 : ¬ k1 = key := by simpa using h.1
    simp [cfgLookup, h1, ih h.2]

/-- Helper: lookups after a Python dict assignment. -/
theorem cfgLookup_dictInsert (m : ConfigMap) (key k : String) (v : ConfigValue) :
    cfgLookup (dictInsert m key v) k
      = if k = key then some v else cfgLookup m k := by
  unfold dictInsert
  by_cases hmem : m.any (fun kv => kv.1 = key) = true
  · rw [if_pos hmem]
    by_cases hk : k = key
    · subst hk
      rw [cfgLookup_mapReplace_eq m k v hmem, if_pos rfl]
    · rw [cfgLookup_mapReplace_ne m key k v hk, if_neg hk]
  · rw [if_neg hmem]
    have hnone : cfgLookup m key = none :=
      cfgLookup_none_of_any_false m key (Bool.eq_false_iff.mpr hmem)
    rw [cfgLookup_append]
    by_cases hk : k = key
    · subst hk
      rw [hnone]
      simp [cfgLookup]
    · have hks : ¬ key = k := fun he => hk he.symm
      cases hm2 : cfgLookup m k with
      | some w => simp [hm2, hk]
      | none => simp [hm2, hk, cfgLookup, hks]

/-- Helper: a key absent from a dict's key list is absent from its
lookups. -/
theorem cfgLookup_none_of_not_mem (m : ConfigMap) (k : String)
    (h : k ∉ m.map Prod.fst) : cfgLookup m k = none := by
  induction m with
  | nil => rfl
  | cons kv m ih =>
    obtain ⟨k1, v1⟩ := kv
    simp only [List.map_cons, List.mem_cons] at h
    push_neg at h
    have h1 : ¬ k1 = k := fun he => h.1 he.symm
    simp [cfgLookup, h1, ih h.2]

/-- Helper: `dict.update` leaves keys absent from the update unchanged. -/
theorem cfgLookup_dictUpdate_absent (base user : ConfigMap) (k : String)
    (h : cfgLookup user k = none) :
    cfgLookup (dictUpdate base user) k = cfgLookup base k := by
  induction user generalizing base with
  | nil => rfl
  | cons kv user ih =>
    obtain ⟨k1, v1⟩ := kv
    have h1 : ¬ k1 = k := by
      intro he
      simp [cfgLookup, he] at h
    have h2 : cfgLookup user k = none := by
      simpa [cfgLookup, h1] using h
    show cfgLookup (dictUpdate (dictInsert base k1 v1) user) k = cfgLookup base k
    rw [ih (dictInsert base k1 v1) h2, cfgLookup_dictInsert,
      if_neg (fun he => h1 he.symm)]

/-- Helper: `dict.update` makes keys present in the update take the
update's value (duplicate-free update, as produced by a JSON parse). -/
theorem cfgLookup_dictUpdate_present (base user : ConfigMap) (k : String)
    (v : ConfigValue) (hnd : (user.map Prod.fst).Nodup)
    (h : cfgLookup user k = some v) :
    cfgLookup (dictUpdate base user) k = some v := by
  induction user generalizing base with
  | nil => exact Option.noConfusion h
  | cons kv user ih =>
    obtain ⟨k1, v1⟩ := kv
    simp only [List.map_cons] at hnd
    have hnd2 : (user.map Prod.fst).Nodup := hnd.of_cons
    by_cases h1 : k1 = k
    · have hv : v1 = v := by
        have := h
        simp [cfgLookup, h1] at this
        exact this
      have hknotin : k ∉ user.map Prod.fst := h1 ▸ (List.nodup_cons.mp hnd).1
      have h2 : cfgLookup user k = none := cfgLookup_none_of_not_mem user k hknotin
      show cfgLookup (dictUpdate (dictInsert base k1 v1) user) k = some v
      rw [cfgLookup_dictUpdate_absent _ _ _ h2, cfgLookup_dictInsert,
        if_pos h1.symm, hv]
    · have h2 : cfgLookup user k = some v := by
        simpa [cfgLookup, h1] using h
      exact ih _ hnd2 h2

/-- C9 counterexample: a config file holding only the unrecognized key
`"bogus_option"` yields a loaded configuration that still contains that
key — `dict.update` merges unknown keys in instead of ignoring them, so
the result does not contain exactly the recognized options. -/
theorem load_config_counterexample :
    cfgLookup (load_config (some (some [("bogus_option", ConfigValue.int 1)])))
        "bogus_option" = some (ConfigValue.int 1) ∧
    cfgLookup default_config "bogus_option" = none := by
  refine ⟨by decide, by decide⟩

/-- C9 amended: every recognized option missing from the user-supplied
file keeps its default value (a missing or unreadable file keeps all
defaults), but keys present in the file — recognized or not — are merged
into the resulting configuration with the file's value, so unknown keys
are not ignored. -/
theorem load_config_amended (user : ConfigMap) (k : String) :
    (cfgLookup user k = none →
      cfgLookup (load_config (some (some user))) k = cfgLookup default_config k) ∧
    ((user.map Prod.fst).Nodup → ∀ v, cfgLookup user k = some v →
      cfgLookup (load_config (some (some user))) k = some v) ∧
    load_config none = default_config ∧
    load_config (some none) = default_config := by
  refine ⟨?_, ?_, rfl, rfl⟩
  · intro h
    exact cfgLookup_dictUpdate_absent default_config user k h
  · intro hnd v h
    exact cfgLookup_dictUpdate_present default_config user k v hnd h

/-- Witness for C9 amended: with a file holding only `"bogus_option"`,
the recognized option `key_rotation_days` keeps its default 90 while the
unknown key is merged in with its file value. -/
theorem load_config_amended_witness :
    cfgLookup (load_config (some (some [("bogus_option", ConfigValue.int 1)])))
        "key_rotation_days" = some (ConfigValue.int 90) ∧
    cfgLookup (load_config (some (some [("bogus_option", ConfigValue.int 1)])))
        "bogus_option" = some (ConfigValue.int 1) :=
  ⟨((load_config_amended [("bogus_option", ConfigValue.int 1)]
      "key_rotation_days").1 (by decide)).trans (by decide),
   (load_config_amended [("bogus_option", ConfigValue.int 1)]
      "bogus_option").2.1 (by decide) (ConfigValue.int 1) (by decide)⟩

end InsuranceChatbot
